import Mathlib

/-!
Verification of the topic-based relay in `src/server.js` (signaling server).

The embedding mirrors the source:
* the global `topics` Map (topic name → Set of sockets) becomes an
  association list `List (String × List Nat)`, where a JS `Set` is a
  duplicate-free, insertion-ordered `List Nat` of connection ids;
* each socket's own state (`isAlive`, the per-connection `subscribedTopics`
  Set, transport fields `readyState` / `bufferedAmount`) becomes a `Conn`
  record, with a total map `Nat → Conn` from connection ids;
* `wss.clients` becomes the `live` list of connection ids;
* inbound JSON values become `Option Envelope` (`none` = `JSON.parse` threw);
  a `topics` array entry that is not a JSON string is `none : Option String`;
* successful `conn.send` appends the envelope to the target's `inbox`;
  `conn.close()` issued by the delivery path sets `closeRequested`;
  `socket.ping()` outcomes are modelled by the transport flag `pingOk`
  (`false` = the probe call throws), and sent probes are counted in `pings`.
-/

set_option maxRecDepth 4000

namespace SignalingServer

/-- One JS `Map` lookup: first entry with the given key (keys are unique by
construction, as in a JS `Map`). -/
def mapGet (m : List (String × List Nat)) (k : String) : Option (List Nat) :=
  match m with
  | [] => none
  | (k', v) :: rest => if k = k' then some v else mapGet rest k

/-- JS `Map.set`: replace the value at the key, or append a new entry. -/
def mapSet (m : List (String × List Nat)) (k : String) (v : List Nat) :
    List (String × List Nat) :=
  match m with
  | [] => [(k, v)]
  | (k', v') :: rest => if k = k' then (k', v) :: rest else (k', v') :: mapSet rest k v

/-- JS `Map.delete`: drop the entry with the given key. -/
def mapDelete (m : List (String × List Nat)) (k : String) :
    List (String × List Nat) :=
  match m with
  | [] => []
  | (k', v') :: rest => if k = k' then rest else (k', v') :: mapDelete rest k

/-- JS `Set.add` on an insertion-ordered duplicate-free list. -/
def setAdd (l : List Nat) (c : Nat) : List Nat :=
  if c ∈ l then l else l ++ [c]

/-- JS `Set.add` for the per-connection topic-name set. -/
def setAddStr (l : List String) (t : String) : List String :=
  if t ∈ l then l else l ++ [t]

/-- Message `type` tag as discriminated by the `switch` in the message
handler; `other` stands for every unrecognized (or absent) `type`. -/
inductive EType where
  | subscribe
  | unsubscribe
  | publish
  | ping
  | pong
  | other
deriving DecidableEq, Repr

/-- A parsed JSON envelope. `topics = none` models an absent field or one
that fails `Array.isArray`; an entry `none : Option String` models an array
element that is not a JSON string. `topic = none` models an absent `topic`
field, `topic = some none` a non-string one. All remaining fields of the
JSON object are opaque payload, represented by `extra`. -/
structure Envelope where
  type : EType
  topics : Option (List (Option String)) := none
  topic : Option (Option String) := none
  extra : Nat := 0
deriving DecidableEq, Repr

/-- Per-socket state. `subscribedTopics` is the per-connection Set of topic
names from `wss.on('connection')`; `inbox` records envelopes successfully
written by `send`; `closeRequested` records a `conn.close()` issued by
`send`'s not-open branch; `pingOk` says whether `socket.ping()` succeeds,
`pings` counts probes sent by the heartbeat. -/
structure Conn where
  readyState : Nat := 1
  bufferedAmount : Nat := 0
  isAlive : Bool := true
  pingOk : Bool := true
  closeRequested : Bool := false
  subscribedTopics : List String := []
  inbox : List Envelope := []
  pings : Nat := 0
deriving DecidableEq, Repr

/-- Whole-relay state: the global `topics` Map, every socket's state, and
`wss.clients` as the `live` id list. -/
structure ServerState where
  topics : List (String × List Nat) := []
  conns : Nat → Conn := fun _ => {}
  live : List Nat := []

/-- Pointwise update of the connection map. -/
def updateFn (f : Nat → Conn) (i : Nat) (v : Conn) : Nat → Conn :=
  fun j => if j = i then v else f j

/-- The subscriber set of a topic (empty when the topic is absent). -/
def subsOf (s : ServerState) (t : String) : List Nat :=
  (mapGet s.topics t).getD []

/-- `send` at the level of one connection record (src/server.js lines 59-71):
if the transport is not open, close and drop; if more than 1,000,000 bytes
are buffered, skip delivery; otherwise write the serialized envelope (the
success path of `conn.send`). -/
def sendOne (c : Conn) (m : Envelope) : Conn :=
  if c.readyState ≠ 1 then { c with closeRequested := true }
  else if c.bufferedAmount > 1000000 then c
  else { c with inbox := c.inbox ++ [m] }

/-- `send(conn, message)` on the whole state. -/
def sendToConn (s : ServerState) (target : Nat) (m : Envelope) : ServerState :=
  { s with conns := updateFn s.conns target (sendOne (s.conns target) m) }

/-- One iteration of the `subscribe` loop body (src/server.js lines 96-106):
skip non-string or empty names, otherwise add the socket to the (lazily
created) subscriber set and record the topic in `subscribedTopics`. -/
def subOne (c : Nat) (s : ServerState) (e : Option String) : ServerState :=
  match e with
  | none => s
  | some t =>
    if t = "" then s
    else
      let subs := (mapGet s.topics t).getD []
      let conn := s.conns c
      { s with
        topics := mapSet s.topics t (setAdd subs c)
        conns := updateFn s.conns c
          { conn with subscribedTopics := setAddStr conn.subscribedTopics t } }

/-- The `subscribe` case: iterate over `list.slice(0, 64)`. -/
def handleSubscribe (c : Nat) (l : List (Option String)) (s : ServerState) :
    ServerState :=
  (l.take 64).foldl (subOne c) s

/-- One iteration of the `unsubscribe` loop body (src/server.js lines
125-132). A non-string entry never matches a Map key (only strings are ever
inserted), so it is a no-op. When the topic exists, the socket is deleted
from its subscriber set, the topic from `subscribedTopics`, and the topic
entry is deleted when its set became empty. -/
def unsubOne (c : Nat) (s : ServerState) (e : Option String) : ServerState :=
  match e with
  | none => s
  | some t =>
    match mapGet s.topics t with
    | none => s
    | some subs =>
      let subs' := subs.filter (fun x => x ≠ c)
      let conn := s.conns c
      { s with
        topics := if subs' = [] then mapDelete s.topics t else mapSet s.topics t subs'
        conns := updateFn s.conns c
          { conn with subscribedTopics := conn.subscribedTopics.filter (fun x => x ≠ t) } }

/-- The `unsubscribe` case iterates over the whole list (no `slice`). -/
def handleUnsubscribe (c : Nat) (l : List (Option String)) (s : ServerState) :
    ServerState :=
  l.foldl (unsubOne c) s

/-- The `publish` case (src/server.js lines 110-121): require a non-empty
string `topic`, look up its receivers, and `send` the whole envelope to every
receiver other than the publishing socket. -/
def handlePublish (sender : Nat) (m : Envelope) (s : ServerState) : ServerState :=
  match m.topic with
  | some (some t) =>
    if t = "" then s
    else
      match mapGet s.topics t with
      | none => s
      | some receivers =>
        receivers.foldl
          (fun acc r => if r ≠ sender then sendToConn acc r m else acc) s
  | _ => s

/-- The `{type:'pong'}` reply object sent by the `ping` case. -/
def pongEnv : Envelope := { type := EType.pong }

/-- The `ping` case: `send(socket, { type: 'pong' })`. -/
def handlePing (c : Nat) (s : ServerState) : ServerState :=
  sendToConn s c pongEnv

/-- The whole `socket.on('message')` handler (src/server.js lines 83-144):
`none` is a payload `JSON.parse` rejected (discarded); otherwise dispatch on
`message?.type`, with a silent default case. -/
def handleMessage (c : Nat) (data : Option Envelope) (s : ServerState) :
    ServerState :=
  match data with
  | none => s
  | some m =>
    match m.type with
    | EType.subscribe => handleSubscribe c (m.topics.getD []) s
    | EType.publish => handlePublish c m s
    | EType.unsubscribe => handleUnsubscribe c (m.topics.getD []) s
    | EType.ping => handlePing c s
    | _ => s

/-- Removing one socket from one topic inside the close handler
(src/server.js lines 148-155): delete the socket from the subscriber set and
delete the topic when the set became empty. -/
def removeFromTopic (c : Nat) (t : String) (s : ServerState) : ServerState :=
  match mapGet s.topics t with
  | none => s
  | some subs =>
    let subs' := subs.filter (fun x => x ≠ c)
    { s with
      topics := if subs' = [] then mapDelete s.topics t else mapSet s.topics t subs' }

/-- The `socket.on('close')` handler (src/server.js lines 146-157): remove
the socket from every topic in its own `subscribedTopics`, then clear that
set. -/
def closeCleanup (c : Nat) (s : ServerState) : ServerState :=
  let s1 := (s.conns c).subscribedTopics.foldl (fun acc t => removeFromTopic c t acc) s
  { s1 with conns := updateFn s1.conns c { s1.conns c with subscribedTopics := [] } }

/-- Full effect of a socket going away: the close handler runs and the
socket leaves `wss.clients`. -/
def terminateConn (c : Nat) (s : ServerState) : ServerState :=
  let s' := closeCleanup c s
  { s' with live := s'.live.filter (fun x => x ≠ c) }

/-- One socket's turn inside the heartbeat sweep (src/server.js lines
162-168): an already-suspect socket is terminated; otherwise mark it suspect
and ping it, terminating right away when the ping call throws. -/
def tickOne (s : ServerState) (d : Nat) : ServerState :=
  let c := s.conns d
  if c.isAlive = false then terminateConn d s
  else if c.pingOk then
    { s with conns := updateFn s.conns d { c with isAlive := false, pings := c.pings + 1 } }
  else
    terminateConn d { s with conns := updateFn s.conns d { c with isAlive := false } }

/-- One 30-second heartbeat interval tick: sweep `wss.clients`. -/
def tick (s : ServerState) : ServerState :=
  s.live.foldl tickOne s

/-- The operations the relay state evolves by, as they arrive at the
dispatcher / lifecycle hooks. -/
inductive Op where
  | subscribe (c : Nat) (l : List (Option String))
  | unsubscribe (c : Nat) (l : List (Option String))
  | publish (c : Nat) (m : Envelope)
  | ping (c : Nat)
  | close (c : Nat)

/-- Apply one operation. -/
def stepOp (s : ServerState) (op : Op) : ServerState :=
  match op with
  | Op.subscribe c l => handleSubscribe c l s
  | Op.unsubscribe c l => handleUnsubscribe c l s
  | Op.publish c m => handlePublish c m s
  | Op.ping c => handlePing c s
  | Op.close c => terminateConn c s

/-- Start state: empty registry, fresh sockets, given client list. -/
def initState (clients : List Nat) : ServerState :=
  { topics := [], conns := fun _ => {}, live := clients }

/-- Run a sequence of operations from the empty registry. -/
def runOps (clients : List Nat) (ops : List Op) : ServerState :=
  ops.foldl stepOp (initState clients)

/-- The upgrade request as the admission gate sees it: `pathname = none`
models a `req.url` on which the `URL` constructor throws. `origin = none`
models an absent `Origin` header; `origin = some ""` a present header with
an empty value (which JS truthiness treats like absence). -/
structure UpgradeReq where
  pathname : Option String
  origin : Option String

/-- Default `WS_PATH` (overridable through the environment at start). -/
def WS_PATH : String := "/ws"

/-- The hard-coded `ALLOWED_ORIGINS` set (src/server.js lines 23-26). -/
def ALLOWED_ORIGINS : List String :=
  ["https://collabo-r8vr1547i-collabo-teams-projects.vercel.app",
   "http://localhost:3000"]

/-- The `server.on('upgrade')` decision (src/server.js lines 29-52): a
malformed URL destroys the socket (the catch); a path other than `wsPath`
destroys it; the origin guard is `origin && !ALLOWED_ORIGINS.has(origin)`,
a truthiness test: only a present, non-empty origin is checked against the
allow-set (an absent or empty-string header is falsy and skips the check);
otherwise the upgrade is handed to the WebSocket server. -/
def gateAccept (wsPath : String) (allowed : List String) (req : UpgradeReq) : Bool :=
  match req.pathname with
  | none => false
  | some p =>
    if p ≠ wsPath then false
    else
      match req.origin with
      | none => true
      | some o => if o = "" then true else allowed.contains o

/-- A freshly admitted socket as `wss.on('connection')` sets it up. -/
def freshConn : Conn := {}

/-- The whole upgrade step: on accept, the socket id joins `wss.clients`
with fresh per-connection state; on reject the relay state is untouched.
Returns the new state and whether a Connection was created. -/
def upgradeStep (wsPath : String) (allowed : List String) (req : UpgradeReq)
    (sock : Nat) (s : ServerState) : ServerState × Bool :=
  if gateAccept wsPath allowed req then
    ({ s with conns := updateFn s.conns sock freshConn, live := s.live ++ [sock] }, true)
  else (s, false)

/-! ### Association-list (JS `Map`) lemmas -/

/-- Keys of the registry are pairwise distinct (true of every JS `Map`). -/
def KeysNodup (m : List (String × List Nat)) : Prop :=
  (m.map Prod.fst).Nodup

theorem mapGet_mapSet_self (m : List (String × List Nat)) (k : String) (v : List Nat) :
    mapGet (mapSet m k v) k = some v := by
  induction m with
  | nil => simp [mapGet, mapSet]
  | cons p rest ih =>
    obtain ⟨k', v'⟩ := p
    by_cases h : k = k' <;> simp [mapGet, mapSet, h, ih]

theorem mapGet_mapSet_ne (m : List (String × List Nat)) (k k' : String) (v : List Nat)
    (h : k' ≠ k) : mapGet (mapSet m k v) k' = mapGet m k' := by
  induction m with
  | nil => simp [mapGet, mapSet, h]
  | cons p rest ih =>
    obtain ⟨k0, v0⟩ := p
    by_cases h1 : k = k0
    · subst h1
      simp [mapGet, mapSet, h]
    · by_cases h2 : k' = k0 <;> simp [mapGet, mapSet, h1, h2, ih]

theorem mapGet_mapDelete_ne (m : List (String × List Nat)) (k k' : String)
    (h : k' ≠ k) : mapGet (mapDelete m k) k' = mapGet m k' := by
  induction m with
  | nil => simp [mapDelete]
  | cons p rest ih =>
    obtain ⟨k0, v0⟩ := p
    by_cases h1 : k = k0
    · subst h1
      simp [mapGet, mapDelete, h]
    · by_cases h2 : k' = k0 <;> simp [mapGet, mapDelete, h1, h2, ih]

theorem mapGet_eq_some_mem (m : List (String × List Nat)) (k : String) (v : List Nat)
    (h : mapGet m k = some v) : (k, v) ∈ m := by
  induction m with
  | nil => simp [mapGet] at h
  | cons p rest ih =>
    obtain ⟨k0, v0⟩ := p
    by_cases h1 : k = k0
    · subst h1
      simp [mapGet] at h
      simp [h]
    · simp [mapGet, h1] at h
      exact List.mem_cons_of_mem _ (ih h)

theorem mapGet_mapDelete_self (m : List (String × List Nat)) (k : String)
    (hnd : KeysNodup m) : mapGet (mapDelete m k) k = none := by
  induction m with
  | nil => simp [mapDelete, mapGet]
  | cons p rest ih =>
    obtain ⟨k0, v0⟩ := p
    simp [KeysNodup] at hnd
    by_cases h1 : k = k0
    · subst h1
      simp [mapDelete]
      cases hget : mapGet rest k with
      | none => rfl
      | some v =>
        exact absurd (mapGet_eq_some_mem rest k v hget) (hnd.1 v)
    · simp [mapDelete, mapGet, h1]
      exact ih hnd.2

theorem mem_mapSet (m : List (String × List Nat)) (k : String) (v : List Nat)
    (p : String × List Nat) (h : p ∈ mapSet m k v) : p ∈ m ∨ p = (k, v) := by
  induction m with
  | nil => simp [mapSet] at h; simp [h]
  | cons q rest ih =>
    obtain ⟨k0, v0⟩ := q
    by_cases h1 : k = k0
    · subst h1
      simp [mapSet] at h
      rcases h with h | h
      · right; simp [h]
      · left; exact List.mem_cons_of_mem _ h
    · simp [mapSet, h1] at h
      rcases h with h | h
      · left; simp [h]
      · rcases ih h with h2 | h2
        · left; exact List.mem_cons_of_mem _ h2
        · right; exact h2

theorem mem_mapDelete (m : List (String × List Nat)) (k : String)
    (p : String × List Nat) (h : p ∈ mapDelete m k) : p ∈ m := by
  induction m with
  | nil => simp [mapDelete] at h
  | cons q rest ih =>
    obtain ⟨k0, v0⟩ := q
    by_cases h1 : k = k0
    · subst h1
      simp [mapDelete] at h
      exact List.mem_cons_of_mem _ h
    · simp [mapDelete, h1] at h
      rcases h with h | h
      · simp [h]
      · exact List.mem_cons_of_mem _ (ih h)

theorem keys_mapSet_subset (m : List (String × List Nat)) (k : String) (v : List Nat)
    (k' : String) (h : k' ∈ (mapSet m k v).map Prod.fst) :
    k' ∈ m.map Prod.fst ∨ k' = k := by
  simp at h
  obtain ⟨w, hw⟩ := h
  rcases mem_mapSet m k v (k', w) hw with h2 | h2
  · left; exact List.mem_map_of_mem Prod.fst h2
  · right; exact congrArg Prod.fst h2

theorem keysNodup_mapSet (m : List (String × List Nat)) (k : String) (v : List Nat)
    (hnd : KeysNodup m) : KeysNodup (mapSet m k v) := by
  induction m with
  | nil => simp [KeysNodup, mapSet]
  | cons p rest ih =>
    obtain ⟨k0, v0⟩ := p
    simp [KeysNodup] at hnd
    by_cases h1 : k = k0
    · subst h1
      simpa [KeysNodup, mapSet] using hnd
    · have hrest := ih hnd.2
      simp [KeysNodup, mapSet, h1]
      refine ⟨fun w hw => ?_, hrest⟩
      rcases mem_mapSet rest k v (k0, w) hw with h2 | h2
      · exact hnd.1 w h2
      · exact h1 (congrArg Prod.fst h2).symm

theorem keysNodup_mapDelete (m : List (String × List Nat)) (k : String)
    (hnd : KeysNodup m) : KeysNodup (mapDelete m k) := by
  induction m with
  | nil => simpa [mapDelete] using hnd
  | cons p rest ih =>
    obtain ⟨k0, v0⟩ := p
    simp [KeysNodup] at hnd
    by_cases h1 : k = k0
    · subst h1
      simpa [KeysNodup, mapDelete] using hnd.2
    · simp [KeysNodup, mapDelete, h1]
      refine ⟨fun w hw => hnd.1 w (mem_mapDelete rest k (k0, w) hw), ih hnd.2⟩

theorem mapSet_self (m : List (String × List Nat)) (k : String) (v : List Nat)
    (h : mapGet m k = some v) : mapSet m k v = m := by
  induction m with
  | nil => simp [mapGet] at h
  | cons p rest ih =>
    obtain ⟨k0, v0⟩ := p
    by_cases h1 : k = k0
    · subst h1
      simp [mapGet] at h
      simp [mapSet, h]
    · simp [mapGet, h1] at h
      simp [mapSet, h1, ih h]

/-! ### Connection-map lemmas -/

theorem updateFn_same (f : Nat → Conn) (i : Nat) (v : Conn) : updateFn f i v i = v := by
  simp [updateFn]

theorem updateFn_ne (f : Nat → Conn) (i j : Nat) (v : Conn) (h : j ≠ i) :
    updateFn f i v j = f j := by
  simp [updateFn, h]

theorem updateFn_id (f : Nat → Conn) (i : Nat) : updateFn f i (f i) = f := by
  funext j
  by_cases h : j = i <;> simp [updateFn, h]

/-! ### Admission gate characterization -/

theorem gateAccept_iff (wsPath : String) (allowed : List String) (req : UpgradeReq) :
    gateAccept wsPath allowed req = true ↔
      (req.pathname = some wsPath ∧
        (req.origin = none ∨ req.origin = some "" ∨
          ∃ o, req.origin = some o ∧ o ∈ allowed)) := by
  obtain ⟨pn, og⟩ := req
  cases pn with
  | none => simp [gateAccept]
  | some p =>
    by_cases hp : p = wsPath
    · subst hp
      cases og with
      | none => simp [gateAccept]
      | some o =>
        by_cases ho : o = ""
        · subst ho
          simp [gateAccept]
        · simp [gateAccept, ho]
    · cases og <;> simp [gateAccept, hp]

/-! ### Concrete states used by witnesses and counterexamples -/

/-- A connection whose outbound buffer is past the 1,000,000-byte threshold. -/
def backedUpState : ServerState :=
  { topics := [("x", [0])],
    conns := fun _ => { bufferedAmount := 2000000, subscribedTopics := ["x"] },
    live := [0] }

/-- Registry with connection 0 subscribed to topic `t`. -/
def capDemoState : ServerState :=
  { topics := [("t", [0])],
    conns := fun _ => { subscribedTopics := ["t"] },
    live := [0] }

/-- 65 topic names: 64 that miss the registry, then the one that hits. -/
def capDemoList : List (Option String) :=
  List.replicate 64 (some "a") ++ [some "t"]

/-- Two subscribers of `x` plus an outside publisher. -/
def pubState : ServerState :=
  { topics := [("x", [1, 2])], conns := fun _ => {}, live := [0, 1, 2] }

/-- A publish envelope with an opaque payload field. -/
def pubEnv : Envelope :=
  { type := EType.publish, topic := some (some "x"), extra := 7 }

/-- An upgrade request for a path other than the configured one. -/
def badReq : UpgradeReq := { pathname := some "/other", origin := none }

/-! ### Claims -/

/-- C6: a delivery attempt to a connection whose transport is open but whose
buffered byte count exceeds 1,000,000 is skipped entirely: the state is
unchanged, so nothing is sent and no close is requested. -/
theorem backpressure_skips_delivery (s : ServerState) (r : Nat) (m : Envelope)
    (hopen : (s.conns r).readyState = 1)
    (hbuf : (s.conns r).bufferedAmount > 1000000) :
    sendToConn s r m = s := by
  have h1 : sendOne (s.conns r) m = s.conns r := by
    simp [sendOne, hopen, hbuf]
  simp [sendToConn, h1, updateFn_id]

/-- Witness for C6: a concrete backed-up open connection is skipped. -/
theorem backpressure_skips_delivery_witness :
    sendToConn backedUpState 0 pongEnv = backedUpState :=
  backpressure_skips_delivery backedUpState 0 pongEnv (by decide) (by decide)

/-- C8: an unparsable payload, or an envelope whose type is none of
subscribe / unsubscribe / publish / ping, leaves the whole relay state (the
registry, every subscribed set, every inbox, every close flag) unchanged. -/
theorem malformed_or_unknown_ignored :
    (∀ (c : Nat) (s : ServerState), handleMessage c none s = s) ∧
    (∀ (c : Nat) (m : Envelope) (s : ServerState),
      m.type ≠ EType.subscribe → m.type ≠ EType.unsubscribe →
      m.type ≠ EType.publish → m.type ≠ EType.ping →
      handleMessage c (some m) s = s) := by
  constructor
  · intro c s
    rfl
  · intro c m s h1 h2 h3 h4
    obtain ⟨ty, tops, top, ex⟩ := m
    cases ty
    · exact absurd rfl h1
    · exact absurd rfl h2
    · exact absurd rfl h3
    · exact absurd rfl h4
    · rfl
    · rfl

/-- Witness for C8: a concrete unknown-typed envelope changes nothing. -/
theorem malformed_or_unknown_ignored_witness :
    handleMessage 0 (some { type := EType.other }) capDemoState = capDemoState :=
  malformed_or_unknown_ignored.2 0 { type := EType.other } capDemoState
    (by decide) (by decide) (by decide) (by decide)

/-- An upgrade request with the right path but a present, empty-valued
`Origin` header (a legal HTTP request; falsy in the JS guard). -/
def emptyOriginReq : UpgradeReq := { pathname := some WS_PATH, origin := some "" }

/-- C5 counterexample: the claimed iff — accepted iff the path matches and
the origin is absent or in the allow-set — is false of the program: the
request with a present empty-string origin (not in the allow-set) is
accepted, because `origin && !ALLOWED_ORIGINS.has(origin)` treats the falsy
empty header like absence and skips the allow-list check. -/
theorem admission_origin_counterexample :
    ¬ (((upgradeStep WS_PATH ALLOWED_ORIGINS emptyOriginReq 5 capDemoState).2 = true) ↔
      (emptyOriginReq.pathname = some WS_PATH ∧
        (emptyOriginReq.origin = none ∨
          ∃ o, emptyOriginReq.origin = some o ∧ o ∈ ALLOWED_ORIGINS))) := by
  intro h
  rcases (h.mp (by decide)).2 with h1 | ⟨o, ho, hmem⟩
  · exact absurd h1 (by decide)
  · have ho' : o = "" := by
      simpa [emptyOriginReq] using ho.symm
    rw [ho'] at hmem
    exact absurd hmem (by decide)

/-- C5 amended: the upgrade is accepted (a Connection is created) iff the
request path equals the configured path and the origin header is absent,
empty (a falsy value skips the allow-list check), or a member of the
allow-set; a malformed URL (`pathname = none`) is rejected, and a rejected
request leaves the relay state untouched. -/
theorem admission_gate (wsPath : String) (allowed : List String)
    (req : UpgradeReq) (sock : Nat) (s : ServerState) :
    ((upgradeStep wsPath allowed req sock s).2 = true ↔
      (req.pathname = some wsPath ∧
        (req.origin = none ∨ req.origin = some "" ∨
          ∃ o, req.origin = some o ∧ o ∈ allowed))) ∧
    ((upgradeStep wsPath allowed req sock s).2 = false →
      (upgradeStep wsPath allowed req sock s).1 = s) := by
  have hiff := gateAccept_iff wsPath allowed req
  constructor
  · rw [← hiff]
    cases hga : gateAccept wsPath allowed req <;> simp [upgradeStep, hga]
  · cases hga : gateAccept wsPath allowed req <;> simp [upgradeStep, hga]

/-- Witness for C5: a request for a wrong path is rejected and the state is
untouched. -/
theorem admission_gate_witness :
    (upgradeStep WS_PATH ALLOWED_ORIGINS badReq 5 capDemoState).1 = capDemoState :=
  (admission_gate WS_PATH ALLOWED_ORIGINS badReq 5 capDemoState).2 (by decide)

/-! ### Publish fan-out lemmas -/

theorem pubStep_topics (sender r : Nat) (m : Envelope) (acc : ServerState) :
    (if r ≠ sender then sendToConn acc r m else acc).topics = acc.topics := by
  by_cases h : r = sender <;> simp [h, sendToConn]

theorem pubStep_live (sender r : Nat) (m : Envelope) (acc : ServerState) :
    (if r ≠ sender then sendToConn acc r m else acc).live = acc.live := by
  by_cases h : r = sender <;> simp [h, sendToConn]

theorem pubStep_conns (sender r c : Nat) (m : Envelope) (acc : ServerState)
    (h : c ≠ r ∨ r = sender) :
    (if r ≠ sender then sendToConn acc r m else acc).conns c = acc.conns c := by
  rcases h with h | h
  · by_cases h2 : r = sender
    · simp [h2]
    · simp [h2, sendToConn, updateFn_ne _ _ _ _ h]
  · simp [h]

theorem pubFold_topics (sender : Nat) (m : Envelope) (rs : List Nat) (s : ServerState) :
    (rs.foldl (fun acc r => if r ≠ sender then sendToConn acc r m else acc) s).topics
      = s.topics := by
  induction rs generalizing s with
  | nil => rfl
  | cons r rest ih =>
    simp only [List.foldl_cons]
    rw [ih]
    exact pubStep_topics sender r m s

theorem pubFold_live (sender : Nat) (m : Envelope) (rs : List Nat) (s : ServerState) :
    (rs.foldl (fun acc r => if r ≠ sender then sendToConn acc r m else acc) s).live
      = s.live := by
  induction rs generalizing s with
  | nil => rfl
  | cons r rest ih =>
    simp only [List.foldl_cons]
    rw [ih]
    exact pubStep_live sender r m s

theorem pubFold_conns_notin (sender c : Nat) (m : Envelope) (rs : List Nat)
    (s : ServerState) (h : c ∉ rs) :
    (rs.foldl (fun acc r => if r ≠ sender then sendToConn acc r m else acc) s).conns c
      = s.conns c := by
  induction rs generalizing s with
  | nil => rfl
  | cons r rest ih =>
    simp only [List.foldl_cons]
    have hc : c ≠ r := fun hh => h (hh ▸ List.mem_cons_self r rest)
    rw [ih _ (fun hh => h (List.mem_cons_of_mem r hh))]
    exact pubStep_conns sender r c m s (Or.inl hc)

theorem pubFold_conns_sender (sender : Nat) (m : Envelope) (rs : List Nat)
    (s : ServerState) :
    (rs.foldl (fun acc r => if r ≠ sender then sendToConn acc r m else acc) s).conns sender
      = s.conns sender := by
  induction rs generalizing s with
  | nil => rfl
  | cons r rest ih =>
    simp only [List.foldl_cons]
    rw [ih]
    by_cases h : r = sender
    · exact pubStep_conns sender r sender m s (Or.inr h)
    · exact pubStep_conns sender r sender m s (Or.inl (fun hh => h hh.symm))

theorem pubFold_conns_mem (sender c : Nat) (m : Envelope) (rs : List Nat)
    (s : ServerState) (hnd : rs.Nodup) (hmem : c ∈ rs) (hcs : c ≠ sender) :
    (rs.foldl (fun acc r => if r ≠ sender then sendToConn acc r m else acc) s).conns c
      = sendOne (s.conns c) m := by
  induction rs generalizing s with
  | nil => simp at hmem
  | cons r rest ih =>
    simp only [List.foldl_cons]
    rcases List.mem_cons.mp hmem with hc | hc
    · subst hc
      have hnotin : c ∉ rest := (List.nodup_cons.mp hnd).1
      rw [pubFold_conns_notin sender c m rest _ hnotin]
      simp [hcs, sendToConn, updateFn_same]
    · have hcr : c ≠ r := by
        intro hh
        exact (List.nodup_cons.mp hnd).1 (hh ▸ hc)
      rw [ih _ (List.nodup_cons.mp hnd).2 hc]
      rw [pubStep_conns sender r c m s (Or.inl hcr)]

/-- C4: publishing to a non-empty string topic with a registry entry hands
the full envelope to `send` for every subscriber other than the publisher
(so an open, non-backed-up subscriber's inbox receives exactly it), touches
no other connection and never the publisher, and leaves the registry alone;
if the topic field is absent, empty, or not a string, or has no registry
entry, the state is completely unchanged. -/
theorem publish_delivery (sender : Nat) (m : Envelope) (s : ServerState) :
    (∀ (t : String) (receivers : List Nat),
      m.topic = some (some t) → t ≠ "" →
      mapGet s.topics t = some receivers → receivers.Nodup →
      (handlePublish sender m s).topics = s.topics ∧
      (handlePublish sender m s).live = s.live ∧
      (handlePublish sender m s).conns sender = s.conns sender ∧
      (∀ r, r ∈ receivers → r ≠ sender →
        (handlePublish sender m s).conns r = sendOne (s.conns r) m) ∧
      (∀ r, r ∉ receivers → r ≠ sender →
        (handlePublish sender m s).conns r = s.conns r)) ∧
    ((∀ t : String, m.topic = some (some t) → t = "" ∨ mapGet s.topics t = none) →
      handlePublish sender m s = s) := by
  constructor
  · intro t receivers ht hne hget hnd
    have hred : handlePublish sender m s =
        receivers.foldl (fun acc r => if r ≠ sender then sendToConn acc r m else acc) s := by
      simp [handlePublish, ht, hne, hget]
    rw [hred]
    refine ⟨pubFold_topics sender m receivers s, pubFold_live sender m receivers s,
      pubFold_conns_sender sender m receivers s, ?_, ?_⟩
    · intro r hr hrs
      exact pubFold_conns_mem sender r m receivers s hnd hr hrs
    · intro r hr _
      exact pubFold_conns_notin sender r m receivers s hr
  · intro h
    cases hm : m.topic with
    | none => simp [handlePublish, hm]
    | some top =>
      cases top with
      | none => simp [handlePublish, hm]
      | some t =>
        rcases h t hm with he | hg
        · simp [handlePublish, hm, he]
        · by_cases he : t = "" <;> simp [handlePublish, hm, he, hg]

/-- Witness for C4: subscriber 1 of topic `x` gets the published envelope. -/
theorem publish_delivery_witness :
    (handlePublish 0 pubEnv pubState).conns 1 = sendOne (pubState.conns 1) pubEnv :=
  ((publish_delivery 0 pubEnv pubState).1 "x" [1, 2] rfl (by decide) (by decide)
    (by decide)).2.2.2.1 1 (by decide) (by decide)

/-- C10: a publisher outside the topic's subscriber set is not rejected:
the envelope is still handed to `send` for every subscriber, the registry
is unchanged and the publisher receives nothing. -/
theorem publish_from_nonsubscriber (sender : Nat) (m : Envelope) (s : ServerState)
    (t : String) (receivers : List Nat)
    (ht : m.topic = some (some t)) (hne : t ≠ "")
    (hget : mapGet s.topics t = some receivers) (hnd : receivers.Nodup)
    (hout : sender ∉ receivers) :
    (handlePublish sender m s).topics = s.topics ∧
    (handlePublish sender m s).conns sender = s.conns sender ∧
    (∀ r, r ∈ receivers → (handlePublish sender m s).conns r = sendOne (s.conns r) m) := by
  have hred : handlePublish sender m s =
      receivers.foldl (fun acc r => if r ≠ sender then sendToConn acc r m else acc) s := by
    simp [handlePublish, ht, hne, hget]
  rw [hred]
  refine ⟨pubFold_topics sender m receivers s, pubFold_conns_sender sender m receivers s, ?_⟩
  intro r hr
  have hrs : r ≠ sender := fun hh => hout (hh ▸ hr)
  exact pubFold_conns_mem sender r m receivers s hnd hr hrs

/-- Witness for C10: publisher 0 is not subscribed to `x`, yet subscriber 2
still gets the envelope. -/
theorem publish_from_nonsubscriber_witness :
    (handlePublish 0 pubEnv pubState).conns 2 = sendOne (pubState.conns 2) pubEnv :=
  (publish_from_nonsubscriber 0 pubEnv pubState "x" [1, 2] rfl (by decide)
    (by decide) (by decide) (by decide)).2.2 2 (by decide)

/-! ### Subscribe idempotence -/

theorem mem_setAdd_self (l : List Nat) (c : Nat) : c ∈ setAdd l c := by
  by_cases h : c ∈ l <;> simp [setAdd, h]

theorem mem_setAdd_of_mem (l : List Nat) (c x : Nat) (h : x ∈ l) : x ∈ setAdd l c := by
  by_cases h2 : c ∈ l <;> simp [setAdd, h2, h]

theorem setAdd_of_mem (l : List Nat) (c : Nat) (h : c ∈ l) : setAdd l c = l := by
  simp [setAdd, h]

theorem mem_setAddStr_self (l : List String) (t : String) : t ∈ setAddStr l t := by
  by_cases h : t ∈ l <;> simp [setAddStr, h]

theorem mem_setAddStr_of_mem (l : List String) (t x : String) (h : x ∈ l) :
    x ∈ setAddStr l t := by
  by_cases h2 : t ∈ l <;> simp [setAddStr, h2, h]

theorem setAddStr_of_mem (l : List String) (t : String) (h : t ∈ l) :
    setAddStr l t = l := by
  simp [setAddStr, h]

/-- Connection `c` is recorded on both sides for topic `t`. -/
def Subscribed (c : Nat) (t : String) (s : ServerState) : Prop :=
  c ∈ subsOf s t ∧ t ∈ (s.conns c).subscribedTopics

theorem mem_subsOf_iff (s : ServerState) (t : String) (c : Nat) :
    c ∈ subsOf s t ↔ ∃ subs, mapGet s.topics t = some subs ∧ c ∈ subs := by
  cases h : mapGet s.topics t <;> simp [subsOf, h]

theorem subOne_of_subscribed (c : Nat) (t : String) (s : ServerState)
    (h : Subscribed c t s) : subOne c s (some t) = s := by
  obtain ⟨hmem, htop⟩ := h
  by_cases he : t = ""
  · simp [subOne, he]
  · obtain ⟨subs, hget, hc⟩ := (mem_subsOf_iff s t c).mp hmem
    simp only [subOne, if_neg he, hget, Option.getD_some]
    rw [setAdd_of_mem subs c hc, mapSet_self s.topics t subs hget,
      setAddStr_of_mem _ t htop, updateFn_id]

theorem subOne_subscribes (c : Nat) (t : String) (s : ServerState) (he : t ≠ "") :
    Subscribed c t (subOne c s (some t)) := by
  simp only [subOne, if_neg he]
  constructor
  · rw [mem_subsOf_iff]
    exact ⟨_, mapGet_mapSet_self _ _ _, mem_setAdd_self _ c⟩
  · simp [updateFn_same]
    exact mem_setAddStr_self _ t

theorem subOne_mono (c c' : Nat) (t : String) (e : Option String) (s : ServerState)
    (h : Subscribed c t s) : Subscribed c t (subOne c' s e) := by
  obtain ⟨hmem, htop⟩ := h
  cases e with
  | none => exact ⟨hmem, htop⟩
  | some u =>
    by_cases he : u = ""
    · simp [subOne, he]
      exact ⟨hmem, htop⟩
    · simp only [subOne, if_neg he]
      constructor
      · rw [mem_subsOf_iff]
        by_cases htu : t = u
        · subst htu
          obtain ⟨subs, hget, hc⟩ := (mem_subsOf_iff s t c).mp hmem
          refine ⟨_, mapGet_mapSet_self _ _ _, ?_⟩
          rw [hget]
          exact mem_setAdd_of_mem subs c' c hc
        · obtain ⟨subs, hget, hc⟩ := (mem_subsOf_iff s t c).mp hmem
          rw [mapGet_mapSet_ne _ _ _ _ htu]
          exact ⟨subs, hget, hc⟩
      · by_cases hcc : c = c'
        · subst hcc
          simp [updateFn_same]
          exact mem_setAddStr_of_mem _ u t htop
        · simp [updateFn_ne _ _ _ _ hcc]
          exact htop

theorem subFold_mono (c c' : Nat) (t : String) (l : List (Option String))
    (s : ServerState) (h : Subscribed c t s) :
    Subscribed c t (l.foldl (subOne c') s) := by
  induction l generalizing s with
  | nil => exact h
  | cons e rest ih =>
    simp only [List.foldl_cons]
    exact ih _ (subOne_mono c c' t e s h)

theorem subFold_subscribes (c : Nat) (t : String) (l : List (Option String))
    (s : ServerState) (hmem : some t ∈ l) (he : t ≠ "") :
    Subscribed c t (l.foldl (subOne c) s) := by
  induction l generalizing s with
  | nil => simp at hmem
  | cons e rest ih =>
    simp only [List.foldl_cons]
    rcases List.mem_cons.mp hmem with h | h
    · subst h
      exact subFold_mono c c t rest _ (subOne_subscribes c t s he)
    · exact ih _ h

theorem subFold_noop (c : Nat) (l : List (Option String)) (s : ServerState)
    (h : ∀ t, some t ∈ l → t ≠ "" → Subscribed c t s) :
    l.foldl (subOne c) s = s := by
  induction l with
  | nil => rfl
  | cons e rest ih =>
    simp only [List.foldl_cons]
    have hstep : subOne c s e = s := by
      cases e with
      | none => rfl
      | some t =>
        by_cases he : t = ""
        · simp [subOne, he]
        · exact subOne_of_subscribed c t s (h t (List.mem_cons_self _ _) he)
    rw [hstep]
    exact ih (fun t ht he => h t (List.mem_cons_of_mem _ ht) he)

/-- C9: subscribing is idempotent — processing the same subscribe envelope a
second time for the same connection leaves the whole state (every topic's
subscriber set, its size, and the connection's subscribed set) exactly as
after the first time. -/
theorem subscribe_idempotent (c : Nat) (l : List (Option String)) (s : ServerState) :
    handleSubscribe c l (handleSubscribe c l s) = handleSubscribe c l s := by
  simp only [handleSubscribe]
  apply subFold_noop
  intro t ht he
  exact subFold_subscribes c t (l.take 64) s ht he

/-! ### The registry invariants (C1, C2) -/

/-- Every registry entry has a non-empty subscriber set. -/
def NonEmptyVals (m : List (String × List Nat)) : Prop :=
  ∀ p ∈ m, p.2 ≠ []

/-- The inductive invariant of the relay: the registry is a well-formed map
with no empty subscriber set, and it agrees with every connection's own
`subscribedTopics`. -/
def Inv (s : ServerState) : Prop :=
  KeysNodup s.topics ∧ NonEmptyVals s.topics ∧
  ∀ c t, c ∈ subsOf s t ↔ t ∈ (s.conns c).subscribedTopics

theorem mem_setAdd_iff (l : List Nat) (c x : Nat) :
    x ∈ setAdd l c ↔ (x ∈ l ∨ x = c) := by
  by_cases h : c ∈ l
  · rw [setAdd_of_mem l c h]
    constructor
    · exact Or.inl
    · rintro (hx | hx)
      · exact hx
      · exact hx ▸ h
  · simp [setAdd, h]

theorem mem_setAddStr_iff (l : List String) (t x : String) :
    x ∈ setAddStr l t ↔ (x ∈ l ∨ x = t) := by
  by_cases h : t ∈ l
  · rw [setAddStr_of_mem l t h]
    constructor
    · exact Or.inl
    · rintro (hx | hx)
      · exact hx
      · exact hx ▸ h
  · simp [setAddStr, h]

theorem subOne_topics_eq (c : Nat) (t : String) (s : ServerState) (he : t ≠ "") :
    (subOne c s (some t)).topics = mapSet s.topics t (setAdd (subsOf s t) c) := by
  simp [subOne, he, subsOf]

theorem subOne_conns_eq (c : Nat) (t : String) (s : ServerState) (he : t ≠ "") :
    (subOne c s (some t)).conns = updateFn s.conns c
      { s.conns c with subscribedTopics := setAddStr (s.conns c).subscribedTopics t } := by
  simp [subOne, he]

theorem subOne_inv (c : Nat) (e : Option String) (s : ServerState) (h : Inv s) :
    Inv (subOne c s e) := by
  obtain ⟨hk, hne, hag⟩ := h
  cases e with
  | none => exact ⟨hk, hne, hag⟩
  | some t =>
    by_cases he : t = ""
    · simp only [subOne, he, if_pos]
      exact ⟨hk, hne, hag⟩
    · refine ⟨?_, ?_, ?_⟩
      · rw [subOne_topics_eq c t s he]
        exact keysNodup_mapSet _ _ _ hk
      · rw [subOne_topics_eq c t s he]
        intro p hp
        rcases mem_mapSet _ _ _ p hp with h2 | h2
        · exact hne p h2
        · rw [h2]
          exact List.ne_nil_of_mem (mem_setAdd_self _ c)
      · intro c0 t0
        have hsubs : subsOf (subOne c s (some t)) t0 =
            (mapGet (mapSet s.topics t (setAdd (subsOf s t) c)) t0).getD [] := by
          rw [subsOf, subOne_topics_eq c t s he]
        rw [hsubs, subOne_conns_eq c t s he]
        by_cases ht0 : t0 = t
        · subst ht0
          rw [mapGet_mapSet_self]
          by_cases hc0 : c0 = c
          · subst hc0
            simp [mem_setAdd_iff, updateFn_same, mem_setAddStr_iff]
          · rw [updateFn_ne _ _ _ _ hc0]
            simp only [Option.getD_some, mem_setAdd_iff]
            constructor
            · rintro (hx | hx)
              · exact (hag c0 t0).mp hx
              · exact absurd hx hc0
            · intro hx
              exact Or.inl ((hag c0 t0).mpr hx)
        · rw [mapGet_mapSet_ne _ _ _ _ ht0]
          by_cases hc0 : c0 = c
          · subst hc0
            rw [updateFn_same]
            simp only [mem_setAddStr_iff]
            constructor
            · intro hx
              exact Or.inl ((hag c0 t0).mp hx)
            · rintro (hx | hx)
              · exact (hag c0 t0).mpr hx
              · exact absurd hx ht0
          · rw [updateFn_ne _ _ _ _ hc0]
            exact hag c0 t0

theorem subFold_inv (c : Nat) (l : List (Option String)) (s : ServerState)
    (h : Inv s) : Inv (l.foldl (subOne c) s) := by
  induction l generalizing s with
  | nil => exact h
  | cons e rest ih =>
    simp only [List.foldl_cons]
    exact ih _ (subOne_inv c e s h)

theorem handleSubscribe_inv (c : Nat) (l : List (Option String)) (s : ServerState)
    (h : Inv s) : Inv (handleSubscribe c l s) :=
  subFold_inv c (l.take 64) s h

theorem subsOf_eq (s : ServerState) (t : String) :
    subsOf s t = (mapGet s.topics t).getD [] := rfl

theorem subsOf_get (s : ServerState) (t : String) (subs : List Nat)
    (hget : mapGet s.topics t = some subs) : subsOf s t = subs := by
  rw [subsOf_eq, hget]
  rfl

theorem unsubOne_topics_eq (c : Nat) (t : String) (s : ServerState) (subs : List Nat)
    (hget : mapGet s.topics t = some subs) :
    (unsubOne c s (some t)).topics =
      if subs.filter (fun x => x ≠ c) = [] then mapDelete s.topics t
      else mapSet s.topics t (subs.filter (fun x => x ≠ c)) := by
  simp [unsubOne, hget]

theorem unsubOne_conns_eq (c : Nat) (t : String) (s : ServerState) (subs : List Nat)
    (hget : mapGet s.topics t = some subs) :
    (unsubOne c s (some t)).conns = updateFn s.conns c
      { s.conns c with
        subscribedTopics := (s.conns c).subscribedTopics.filter (fun x => x ≠ t) } := by
  simp [unsubOne, hget]

theorem unsubOne_inv (c : Nat) (e : Option String) (s : ServerState) (h : Inv s) :
    Inv (unsubOne c s e) := by
  obtain ⟨hk, hne, hag⟩ := h
  cases e with
  | none => exact ⟨hk, hne, hag⟩
  | some t =>
    cases hget : mapGet s.topics t with
    | none =>
      simp only [unsubOne, hget]
      exact ⟨hk, hne, hag⟩
    | some subs =>
      have hagt : ∀ c0, c0 ∈ subs ↔ t ∈ (s.conns c0).subscribedTopics := by
        intro c0
        rw [← subsOf_get s t subs hget]
        exact hag c0 t
      have hsubT : ∀ c0, ((unsubOne c s (some t)).conns c0).subscribedTopics =
          if c0 = c then (s.conns c).subscribedTopics.filter (fun x => x ≠ t)
          else (s.conns c0).subscribedTopics := by
        intro c0
        rw [unsubOne_conns_eq c t s subs hget]
        by_cases hc0 : c0 = c
        · subst hc0
          rw [updateFn_same, if_pos rfl]
        · rw [updateFn_ne _ _ _ _ hc0, if_neg hc0]
      by_cases hemp : subs.filter (fun x => x ≠ c) = []
      · have hTop : (unsubOne c s (some t)).topics = mapDelete s.topics t := by
          rw [unsubOne_topics_eq c t s subs hget, if_pos hemp]
        refine ⟨?_, ?_, ?_⟩
        · rw [hTop]
          exact keysNodup_mapDelete s.topics t hk
        · rw [hTop]
          intro p hp
          exact hne p (mem_mapDelete _ _ _ hp)
        · intro c0 t0
          rw [subsOf_eq, hTop, hsubT c0]
          by_cases ht0 : t0 = t
          · subst ht0
            rw [mapGet_mapDelete_self s.topics t0 hk]
            simp only [Option.getD_none, List.not_mem_nil, false_iff]
            by_cases hc0 : c0 = c
            · rw [if_pos hc0]
              simp [List.mem_filter]
            · rw [if_neg hc0]
              intro hmem
              have hin : c0 ∈ subs := (hagt c0).mpr hmem
              have hmf : c0 ∈ subs.filter (fun x => x ≠ c) :=
                List.mem_filter.mpr ⟨hin, by simp [hc0]⟩
              rw [hemp] at hmf
              exact List.not_mem_nil c0 hmf
          · rw [mapGet_mapDelete_ne _ _ _ ht0, ← subsOf_eq]
            by_cases hc0 : c0 = c
            · subst hc0
              rw [if_pos rfl]
              simp only [List.mem_filter]
              constructor
              · intro hx
                exact ⟨(hag c0 t0).mp hx, by simp [ht0]⟩
              · intro hx
                exact (hag c0 t0).mpr hx.1
            · rw [if_neg hc0]
              exact hag c0 t0
      · have hTop : (unsubOne c s (some t)).topics =
            mapSet s.topics t (subs.filter (fun x => x ≠ c)) := by
          rw [unsubOne_topics_eq c t s subs hget, if_neg hemp]
        refine ⟨?_, ?_, ?_⟩
        · rw [hTop]
          exact keysNodup_mapSet s.topics t _ hk
        · rw [hTop]
          intro p hp
          rcases mem_mapSet _ _ _ p hp with h2 | h2
          · exact hne p h2
          · rw [h2]
            exact hemp
        · intro c0 t0
          rw [subsOf_eq, hTop, hsubT c0]
          by_cases ht0 : t0 = t
          · subst ht0
            rw [mapGet_mapSet_self]
            simp only [Option.getD_some, List.mem_filter]
            by_cases hc0 : c0 = c
            · rw [if_pos hc0]
              subst hc0
              simp [List.mem_filter]
            · rw [if_neg hc0]
              constructor
              · intro hx
                exact (hagt c0).mp hx.1
              · intro hx
                exact ⟨(hagt c0).mpr hx, by simp [hc0]⟩
          · rw [mapGet_mapSet_ne _ _ _ _ ht0, ← subsOf_eq]
            by_cases hc0 : c0 = c
            · subst hc0
              rw [if_pos rfl]
              simp only [List.mem_filter]
              constructor
              · intro hx
                exact ⟨(hag c0 t0).mp hx, by simp [ht0]⟩
              · intro hx
                exact (hag c0 t0).mpr hx.1
            · rw [if_neg hc0]
              exact hag c0 t0

theorem handleUnsubscribe_inv (c : Nat) (l : List (Option String)) (s : ServerState)
    (h : Inv s) : Inv (handleUnsubscribe c l s) := by
  rw [handleUnsubscribe]
  induction l generalizing s with
  | nil => exact h
  | cons e rest ih =>
    simp only [List.foldl_cons]
    exact ih _ (unsubOne_inv c e s h)

theorem sendOne_subscribedTopics (c : Conn) (m : Envelope) :
    (sendOne c m).subscribedTopics = c.subscribedTopics := by
  rw [sendOne]
  split
  · rfl
  · split <;> rfl

theorem sendToConn_conns (s : ServerState) (r : Nat) (m : Envelope) :
    (sendToConn s r m).conns = updateFn s.conns r (sendOne (s.conns r) m) := rfl

theorem sendToConn_subT (s : ServerState) (r c0 : Nat) (m : Envelope) :
    ((sendToConn s r m).conns c0).subscribedTopics = (s.conns c0).subscribedTopics := by
  rw [sendToConn_conns]
  by_cases h : c0 = r
  · subst h
    rw [updateFn_same, sendOne_subscribedTopics]
  · rw [updateFn_ne _ _ _ _ h]

theorem sendToConn_inv (s : ServerState) (r : Nat) (m : Envelope) (h : Inv s) :
    Inv (sendToConn s r m) := by
  obtain ⟨hk, hne, hag⟩ := h
  refine ⟨hk, hne, ?_⟩
  intro c0 t0
  rw [show subsOf (sendToConn s r m) t0 = subsOf s t0 from rfl, sendToConn_subT s r c0 m]
  exact hag c0 t0

theorem pubFold_inv (sender : Nat) (m : Envelope) (rs : List Nat) (s : ServerState)
    (h : Inv s) :
    Inv (rs.foldl (fun acc r => if r ≠ sender then sendToConn acc r m else acc) s) := by
  induction rs generalizing s with
  | nil => exact h
  | cons r rest ih =>
    simp only [List.foldl_cons]
    apply ih
    by_cases hr : r = sender
    · rw [if_neg (fun hh => hh hr)]
      exact h
    · rw [if_pos hr]
      exact sendToConn_inv s r m h

theorem handlePublish_inv (sender : Nat) (m : Envelope) (s : ServerState)
    (h : Inv s) : Inv (handlePublish sender m s) := by
  obtain ⟨ty, tops, top, ex⟩ := m
  cases top with
  | none => exact h
  | some o =>
    cases o with
    | none => exact h
    | some t =>
      by_cases he : t = ""
      · simp only [handlePublish, if_pos he]
        exact h
      · simp only [handlePublish, if_neg he]
        cases hget : mapGet s.topics t with
        | none => exact h
        | some receivers =>
          simp only [hget]
          exact pubFold_inv sender _ receivers s h

/-! ### Close-cleanup characterization -/

/-- The effect of deleting connection `c` from one optional subscriber set,
with the emptied set collapsing to absence. -/
def purge (c : Nat) (o : Option (List Nat)) : Option (List Nat) :=
  match o with
  | none => none
  | some subs =>
    if subs.filter (fun x => x ≠ c) = [] then none
    else some (subs.filter (fun x => x ≠ c))

theorem filter_ne_idem (l : List Nat) (c : Nat) :
    (l.filter (fun x => x ≠ c)).filter (fun x => x ≠ c) = l.filter (fun x => x ≠ c) := by
  induction l with
  | nil => rfl
  | cons a rest ih =>
    by_cases h : a = c <;> simp [List.filter_cons, h, ih]

theorem purge_none (c : Nat) : purge c none = none := rfl

theorem purge_some (c : Nat) (subs : List Nat) :
    purge c (some subs) =
      if subs.filter (fun x => x ≠ c) = [] then none
      else some (subs.filter (fun x => x ≠ c)) := rfl

theorem purge_idem (c : Nat) (o : Option (List Nat)) :
    purge c (purge c o) = purge c o := by
  cases o with
  | none => rfl
  | some subs =>
    rw [purge_some c subs]
    by_cases hemp : subs.filter (fun x => x ≠ c) = []
    · rw [if_pos hemp, purge_none]
    · rw [if_neg hemp, purge_some, filter_ne_idem, if_neg hemp]

theorem mem_purge_iff (c c0 : Nat) (o : Option (List Nat)) :
    c0 ∈ (purge c o).getD [] ↔ (c0 ∈ o.getD [] ∧ c0 ≠ c) := by
  cases o with
  | none => simp [purge]
  | some subs =>
    by_cases hemp : subs.filter (fun x => x ≠ c) = []
    · simp only [purge, if_pos hemp, Option.getD_none, Option.getD_some,
        List.not_mem_nil, false_iff]
      rintro ⟨h1, h2⟩
      have hmf : c0 ∈ subs.filter (fun x => x ≠ c) :=
        List.mem_filter.mpr ⟨h1, by simp [h2]⟩
      rw [hemp] at hmf
      exact List.not_mem_nil c0 hmf
    · simp only [purge, if_neg hemp, Option.getD_some, List.mem_filter]
      simp

theorem removeFromTopic_conns (c : Nat) (t : String) (s : ServerState) :
    (removeFromTopic c t s).conns = s.conns := by
  cases hget : mapGet s.topics t with
  | none => simp [removeFromTopic, hget]
  | some subs => simp only [removeFromTopic, hget]

theorem removeFromTopic_live (c : Nat) (t : String) (s : ServerState) :
    (removeFromTopic c t s).live = s.live := by
  cases hget : mapGet s.topics t with
  | none => simp [removeFromTopic, hget]
  | some subs => simp only [removeFromTopic, hget]

theorem removeFromTopic_keysNodup (c : Nat) (t : String) (s : ServerState)
    (hk : KeysNodup s.topics) : KeysNodup (removeFromTopic c t s).topics := by
  cases hget : mapGet s.topics t with
  | none => simpa [removeFromTopic, hget] using hk
  | some subs =>
    simp only [removeFromTopic, hget]
    by_cases hemp : subs.filter (fun x => x ≠ c) = []
    · rw [if_pos hemp]
      exact keysNodup_mapDelete s.topics t hk
    · rw [if_neg hemp]
      exact keysNodup_mapSet s.topics t _ hk

theorem removeFromTopic_nonEmpty (c : Nat) (t : String) (s : ServerState)
    (hne : NonEmptyVals s.topics) : NonEmptyVals (removeFromTopic c t s).topics := by
  cases hget : mapGet s.topics t with
  | none => simpa [removeFromTopic, hget] using hne
  | some subs =>
    simp only [removeFromTopic, hget]
    by_cases hemp : subs.filter (fun x => x ≠ c) = []
    · rw [if_pos hemp]
      intro p hp
      exact hne p (mem_mapDelete _ _ _ hp)
    · rw [if_neg hemp]
      intro p hp
      rcases mem_mapSet _ _ _ p hp with h2 | h2
      · exact hne p h2
      · rw [h2]
        exact hemp

theorem removeFromTopic_get (c : Nat) (t : String) (s : ServerState)
    (hk : KeysNodup s.topics) (t0 : String) :
    mapGet (removeFromTopic c t s).topics t0 =
      if t0 = t then purge c (mapGet s.topics t0) else mapGet s.topics t0 := by
  cases hget : mapGet s.topics t with
  | none =>
    have hrm : removeFromTopic c t s = s := by simp [removeFromTopic, hget]
    rw [hrm]
    by_cases ht0 : t0 = t
    · subst ht0
      rw [if_pos rfl, hget]
      rfl
    · rw [if_neg ht0]
  | some subs =>
    simp only [removeFromTopic, hget]
    by_cases ht0 : t0 = t
    · subst ht0
      rw [if_pos rfl, hget, purge_some]
      by_cases hemp : subs.filter (fun x => x ≠ c) = []
      · rw [if_pos hemp, if_pos hemp]
        exact mapGet_mapDelete_self s.topics t0 hk
      · rw [if_neg hemp, if_neg hemp]
        exact mapGet_mapSet_self s.topics t0 _
    · rw [if_neg ht0]
      by_cases hemp : subs.filter (fun x => x ≠ c) = []
      · rw [if_pos hemp]
        exact mapGet_mapDelete_ne s.topics t t0 ht0
      · rw [if_neg hemp]
        exact mapGet_mapSet_ne s.topics t t0 _ ht0

theorem rmFold_conns (c : Nat) (stl : List String) (s : ServerState) :
    (stl.foldl (fun acc u => removeFromTopic c u acc) s).conns = s.conns := by
  induction stl generalizing s with
  | nil => rfl
  | cons u rest ih =>
    simp only [List.foldl_cons]
    rw [ih, removeFromTopic_conns]

theorem rmFold_live (c : Nat) (stl : List String) (s : ServerState) :
    (stl.foldl (fun acc u => removeFromTopic c u acc) s).live = s.live := by
  induction stl generalizing s with
  | nil => rfl
  | cons u rest ih =>
    simp only [List.foldl_cons]
    rw [ih, removeFromTopic_live]

theorem rmFold_keysNodup (c : Nat) (stl : List String) (s : ServerState)
    (hk : KeysNodup s.topics) :
    KeysNodup (stl.foldl (fun acc u => removeFromTopic c u acc) s).topics := by
  induction stl generalizing s with
  | nil => exact hk
  | cons u rest ih =>
    simp only [List.foldl_cons]
    exact ih _ (removeFromTopic_keysNodup c u s hk)

theorem rmFold_nonEmpty (c : Nat) (stl : List String) (s : ServerState)
    (hne : NonEmptyVals s.topics) :
    NonEmptyVals (stl.foldl (fun acc u => removeFromTopic c u acc) s).topics := by
  induction stl generalizing s with
  | nil => exact hne
  | cons u rest ih =>
    simp only [List.foldl_cons]
    exact ih _ (removeFromTopic_nonEmpty c u s hne)

theorem rmFold_get (c : Nat) (stl : List String) (s : ServerState)
    (hk : KeysNodup s.topics) (t0 : String) :
    mapGet (stl.foldl (fun acc u => removeFromTopic c u acc) s).topics t0 =
      if t0 ∈ stl then purge c (mapGet s.topics t0) else mapGet s.topics t0 := by
  induction stl generalizing s with
  | nil => simp
  | cons u rest ih =>
    simp only [List.foldl_cons]
    rw [ih _ (removeFromTopic_keysNodup c u s hk)]
    rw [removeFromTopic_get c u s hk t0]
    by_cases hmem : t0 ∈ rest
    · rw [if_pos hmem, if_pos (List.mem_cons_of_mem u hmem)]
      by_cases ht0 : t0 = u
      · rw [if_pos ht0, purge_idem]
      · rw [if_neg ht0]
    · rw [if_neg hmem]
      by_cases ht0 : t0 = u
      · rw [if_pos ht0, if_pos (ht0 ▸ List.mem_cons_self u rest)]
      · rw [if_neg ht0, if_neg (by simp [ht0, hmem])]

theorem closeCleanup_conns (c : Nat) (s : ServerState) :
    (closeCleanup c s).conns =
      updateFn s.conns c { s.conns c with subscribedTopics := [] } := by
  simp only [closeCleanup]
  rw [rmFold_conns]

theorem closeCleanup_get (c : Nat) (s : ServerState) (hk : KeysNodup s.topics)
    (t0 : String) :
    mapGet (closeCleanup c s).topics t0 =
      if t0 ∈ (s.conns c).subscribedTopics then purge c (mapGet s.topics t0)
      else mapGet s.topics t0 := by
  simp only [closeCleanup]
  exact rmFold_get c (s.conns c).subscribedTopics s hk t0

theorem terminateConn_inv (c : Nat) (s : ServerState) (h : Inv s) :
    Inv (terminateConn c s) := by
  obtain ⟨hk, hne, hag⟩ := h
  have htop : (terminateConn c s).topics = (closeCleanup c s).topics := rfl
  have hcon : (terminateConn c s).conns = (closeCleanup c s).conns := rfl
  refine ⟨?_, ?_, ?_⟩
  · rw [htop]
    simp only [closeCleanup]
    exact rmFold_keysNodup c _ s hk
  · rw [htop]
    simp only [closeCleanup]
    exact rmFold_nonEmpty c _ s hne
  · intro c0 t0
    rw [subsOf_eq, htop, closeCleanup_get c s hk t0, hcon, closeCleanup_conns]
    by_cases hc0 : c0 = c
    · subst hc0
      rw [updateFn_same]
      simp only [List.not_mem_nil, iff_false]
      by_cases hmem : t0 ∈ (s.conns c0).subscribedTopics
      · rw [if_pos hmem, mem_purge_iff]
        rintro ⟨_, h2⟩
        exact h2 rfl
      · rw [if_neg hmem]
        intro hx
        exact hmem ((hag c0 t0).mp hx)
    · rw [updateFn_ne _ _ _ _ hc0]
      by_cases hmem : t0 ∈ (s.conns c).subscribedTopics
      · rw [if_pos hmem, mem_purge_iff]
        rw [show ((mapGet s.topics t0).getD [] = subsOf s t0) from rfl]
        constructor
        · intro hx
          exact (hag c0 t0).mp hx.1
        · intro hx
          exact ⟨(hag c0 t0).mpr hx, hc0⟩
      · rw [if_neg hmem]
        exact hag c0 t0

/-! ### The invariant over every reachable state -/

theorem stepOp_inv (s : ServerState) (op : Op) (h : Inv s) : Inv (stepOp s op) := by
  cases op with
  | subscribe c l => exact handleSubscribe_inv c l s h
  | unsubscribe c l => exact handleUnsubscribe_inv c l s h
  | publish c m => exact handlePublish_inv c m s h
  | ping c => exact sendToConn_inv s c pongEnv h
  | close c => exact terminateConn_inv c s h

theorem foldOps_inv (ops : List Op) (s : ServerState) (h : Inv s) :
    Inv (ops.foldl stepOp s) := by
  induction ops generalizing s with
  | nil => exact h
  | cons op rest ih =>
    simp only [List.foldl_cons]
    exact ih _ (stepOp_inv s op h)

theorem initState_inv (clients : List Nat) : Inv (initState clients) := by
  refine ⟨List.nodup_nil, fun p hp => absurd hp (List.not_mem_nil p), fun c t => ?_⟩
  constructor
  · intro hx
    exact absurd hx (List.not_mem_nil c)
  · intro hx
    exact absurd hx (List.not_mem_nil t)

theorem runOps_inv (clients : List Nat) (ops : List Op) : Inv (runOps clients ops) :=
  foldOps_inv ops (initState clients) (initState_inv clients)

/-- C1: after any sequence of subscribe, unsubscribe, publish, ping and
connection-close operations starting from the empty registry, every topic
present in the registry has a non-empty subscriber set (in particular,
close and unsubscribe delete every topic whose set they empty). -/
theorem registry_topics_nonempty (clients : List Nat) (ops : List Op)
    (p : String × List Nat) (hp : p ∈ (runOps clients ops).topics) : p.2 ≠ [] :=
  (runOps_inv clients ops).2.1 p hp

/-- Witness for C1 on a one-subscription run. -/
theorem registry_topics_nonempty_witness :
    ("a", [0]) ∈ (runOps [0] [Op.subscribe 0 [some "a"]]).topics ∧
      ([0] : List Nat) ≠ [] :=
  ⟨by decide, registry_topics_nonempty [0] [Op.subscribe 0 [some "a"]] ("a", [0])
    (by decide)⟩

/-- C2: after any sequence of subscribe, unsubscribe, publish, ping and
close operations, the registry and the per-connection subscribed sets
agree: for every connection (in particular every live one) and every topic,
the connection is in the topic's subscriber set iff the topic is in the
connection's `subscribedTopics`. -/
theorem registry_connection_agreement (clients : List Nat) (ops : List Op)
    (c : Nat) (t : String) :
    c ∈ subsOf (runOps clients ops) t ↔
      t ∈ ((runOps clients ops).conns c).subscribedTopics :=
  (runOps_inv clients ops).2.2 c t

/-- C3 counterexample: the 65th entry of an unsubscribe topics list does
change the registry — the unsubscribe loop has no 64-entry cap. -/
theorem unsubscribe_cap_counterexample :
    (handleUnsubscribe 0 capDemoList capDemoState).topics ≠
      (handleUnsubscribe 0 (capDemoList.take 64) capDemoState).topics := by
  decide

/-- C3 amended: only subscribe envelopes are capped at the first 64 entries
of the topics list; an unsubscribe envelope applies all entries (shown by
the 65-entry list whose last entry still changes the registry). -/
theorem topics_cap_amended :
    (∀ (c : Nat) (l : List (Option String)) (s : ServerState),
      handleSubscribe c l s = handleSubscribe c (l.take 64) s) ∧
    (handleUnsubscribe 0 capDemoList capDemoState).topics ≠
      (handleUnsubscribe 0 (capDemoList.take 64) capDemoState).topics := by
  constructor
  · intro c l s
    simp [handleSubscribe, List.take_take]
  · decide

/-! ### Heartbeat (C7) -/

theorem terminateConn_conns (d : Nat) (s : ServerState) :
    (terminateConn d s).conns =
      updateFn s.conns d { s.conns d with subscribedTopics := [] } :=
  closeCleanup_conns d s

theorem closeCleanup_live (c : Nat) (s : ServerState) :
    (closeCleanup c s).live = s.live :=
  rmFold_live c (s.conns c).subscribedTopics s

theorem terminateConn_live (d : Nat) (s : ServerState) :
    (terminateConn d s).live = s.live.filter (fun x => x ≠ d) := by
  rw [show (terminateConn d s).live
        = (closeCleanup d s).live.filter (fun x => x ≠ d) from rfl,
    closeCleanup_live]

theorem terminateConn_keysNodup (d : Nat) (s : ServerState)
    (hk : KeysNodup s.topics) : KeysNodup (terminateConn d s).topics :=
  rmFold_keysNodup d (s.conns d).subscribedTopics s hk

theorem terminateConn_subs_sub (d : Nat) (s : ServerState) (hk : KeysNodup s.topics)
    (c0 : Nat) (t : String) (h : c0 ∈ subsOf (terminateConn d s) t) :
    c0 ∈ subsOf s t := by
  rw [show subsOf (terminateConn d s) t
        = (mapGet (closeCleanup d s).topics t).getD [] from rfl,
    closeCleanup_get d s hk t] at h
  by_cases hstl : t ∈ (s.conns d).subscribedTopics
  · rw [if_pos hstl] at h
    exact ((mem_purge_iff d c0 (mapGet s.topics t)).mp h).1
  · rw [if_neg hstl] at h
    exact h

theorem tickOne_eq_dead (s : ServerState) (d : Nat)
    (h : (s.conns d).isAlive = false) : tickOne s d = terminateConn d s := by
  simp [tickOne, h]

theorem tickOne_eq_alive (s : ServerState) (d : Nat)
    (h : (s.conns d).isAlive = true) (hp : (s.conns d).pingOk = true) :
    tickOne s d = ServerState.mk s.topics
      (updateFn s.conns d
        { s.conns d with isAlive := false, pings := (s.conns d).pings + 1 })
      s.live := by
  simp [tickOne, h, hp]

theorem tickOne_eq_pingfail (s : ServerState) (d : Nat)
    (h : (s.conns d).isAlive = true) (hp : (s.conns d).pingOk = false) :
    tickOne s d = terminateConn d
      (ServerState.mk s.topics
        (updateFn s.conns d { s.conns d with isAlive := false }) s.live) := by
  simp [tickOne, h, hp]

theorem tickOne_conns_ne (s : ServerState) (d c0 : Nat) (hne : c0 ≠ d) :
    (tickOne s d).conns c0 = s.conns c0 := by
  cases hal : (s.conns d).isAlive with
  | false =>
    rw [tickOne_eq_dead s d hal, terminateConn_conns, updateFn_ne _ _ _ _ hne]
  | true =>
    cases hpk : (s.conns d).pingOk with
    | true =>
      rw [tickOne_eq_alive s d hal hpk]
      exact updateFn_ne _ _ _ _ hne
    | false =>
      rw [tickOne_eq_pingfail s d hal hpk, terminateConn_conns, updateFn_ne _ _ _ _ hne]
      exact updateFn_ne s.conns d c0 _ hne

theorem tickOne_live_sub (s : ServerState) (d c0 : Nat)
    (h : c0 ∈ (tickOne s d).live) : c0 ∈ s.live := by
  cases hal : (s.conns d).isAlive with
  | false =>
    rw [tickOne_eq_dead s d hal, terminateConn_live] at h
    exact (List.mem_filter.mp h).1
  | true =>
    cases hpk : (s.conns d).pingOk with
    | true =>
      rw [tickOne_eq_alive s d hal hpk] at h
      exact h
    | false =>
      rw [tickOne_eq_pingfail s d hal hpk, terminateConn_live] at h
      exact (List.mem_filter.mp h).1

theorem tickOne_live_ne (s : ServerState) (d c0 : Nat) (hne : c0 ≠ d) :
    c0 ∈ (tickOne s d).live ↔ c0 ∈ s.live := by
  cases hal : (s.conns d).isAlive with
  | false =>
    rw [tickOne_eq_dead s d hal, terminateConn_live, List.mem_filter]
    simp [hne]
  | true =>
    cases hpk : (s.conns d).pingOk with
    | true => rw [tickOne_eq_alive s d hal hpk]
    | false =>
      rw [tickOne_eq_pingfail s d hal hpk, terminateConn_live, List.mem_filter]
      simp [hne]

theorem tickOne_live_nodup (s : ServerState) (d : Nat) (hnd : s.live.Nodup) :
    (tickOne s d).live.Nodup := by
  cases hal : (s.conns d).isAlive with
  | false =>
    rw [tickOne_eq_dead s d hal, terminateConn_live]
    exact hnd.filter _
  | true =>
    cases hpk : (s.conns d).pingOk with
    | true =>
      rw [tickOne_eq_alive s d hal hpk]
      exact hnd
    | false =>
      rw [tickOne_eq_pingfail s d hal hpk, terminateConn_live]
      exact hnd.filter _

theorem tickOne_keysNodup (s : ServerState) (d : Nat) (hk : KeysNodup s.topics) :
    KeysNodup (tickOne s d).topics := by
  cases hal : (s.conns d).isAlive with
  | false =>
    rw [tickOne_eq_dead s d hal]
    exact terminateConn_keysNodup d s hk
  | true =>
    cases hpk : (s.conns d).pingOk with
    | true =>
      rw [tickOne_eq_alive s d hal hpk]
      exact hk
    | false =>
      rw [tickOne_eq_pingfail s d hal hpk]
      exact terminateConn_keysNodup d _ (by exact hk)

theorem tickOne_subs_sub (s : ServerState) (d : Nat) (hk : KeysNodup s.topics)
    (c0 : Nat) (t : String) (h : c0 ∈ subsOf (tickOne s d) t) : c0 ∈ subsOf s t := by
  cases hal : (s.conns d).isAlive with
  | false =>
    rw [tickOne_eq_dead s d hal] at h
    exact terminateConn_subs_sub d s hk c0 t h
  | true =>
    cases hpk : (s.conns d).pingOk with
    | true =>
      rw [tickOne_eq_alive s d hal hpk] at h
      exact h
    | false =>
      rw [tickOne_eq_pingfail s d hal hpk] at h
      exact terminateConn_subs_sub d
        (ServerState.mk s.topics
          (updateFn s.conns d { s.conns d with isAlive := false }) s.live)
        hk c0 t h

theorem foldTick_conns_notin (l : List Nat) (s : ServerState) (c0 : Nat)
    (h : c0 ∉ l) : (l.foldl tickOne s).conns c0 = s.conns c0 := by
  induction l generalizing s with
  | nil => rfl
  | cons d rest ih =>
    simp only [List.foldl_cons]
    have hcd : c0 ≠ d := fun hh => h (hh ▸ List.mem_cons_self d rest)
    rw [ih _ (fun hh => h (List.mem_cons_of_mem d hh)), tickOne_conns_ne s d c0 hcd]

theorem foldTick_live_sub (l : List Nat) (s : ServerState) (c0 : Nat)
    (h : c0 ∈ (l.foldl tickOne s).live) : c0 ∈ s.live := by
  induction l generalizing s with
  | nil => exact h
  | cons d rest ih =>
    simp only [List.foldl_cons] at h
    exact tickOne_live_sub s d c0 (ih _ h)

theorem foldTick_live_iff (l : List Nat) (s : ServerState) (c0 : Nat)
    (h : c0 ∉ l) : c0 ∈ (l.foldl tickOne s).live ↔ c0 ∈ s.live := by
  induction l generalizing s with
  | nil => exact Iff.rfl
  | cons d rest ih =>
    simp only [List.foldl_cons]
    have hcd : c0 ≠ d := fun hh => h (hh ▸ List.mem_cons_self d rest)
    rw [ih _ (fun hh => h (List.mem_cons_of_mem d hh)), tickOne_live_ne s d c0 hcd]

theorem foldTick_live_nodup (l : List Nat) (s : ServerState) (hnd : s.live.Nodup) :
    (l.foldl tickOne s).live.Nodup := by
  induction l generalizing s with
  | nil => exact hnd
  | cons d rest ih =>
    simp only [List.foldl_cons]
    exact ih _ (tickOne_live_nodup s d hnd)

theorem foldTick_keysNodup (l : List Nat) (s : ServerState) (hk : KeysNodup s.topics) :
    KeysNodup (l.foldl tickOne s).topics := by
  induction l generalizing s with
  | nil => exact hk
  | cons d rest ih =>
    simp only [List.foldl_cons]
    exact ih _ (tickOne_keysNodup s d hk)

theorem foldTick_subs_sub (l : List Nat) (s : ServerState) (hk : KeysNodup s.topics)
    (c0 : Nat) (t : String) (h : c0 ∈ subsOf (l.foldl tickOne s) t) :
    c0 ∈ subsOf s t := by
  induction l generalizing s with
  | nil => exact h
  | cons d rest ih =>
    simp only [List.foldl_cons] at h
    exact tickOne_subs_sub s d hk c0 t (ih _ (tickOne_keysNodup s d hk) h)

/-- Every id in a registry subscriber set is recorded in that connection's
own subscribed set (the half of the agreement invariant the close cleanup
relies on), stated over the finite registry so it is decidable. -/
def SubsRecorded (s : ServerState) : Prop :=
  ∀ p ∈ s.topics, ∀ x ∈ p.2, p.1 ∈ (s.conns x).subscribedTopics

theorem subsRecorded_incl (s : ServerState) (h : SubsRecorded s) (c : Nat)
    (t : String) (hm : c ∈ subsOf s t) : t ∈ (s.conns c).subscribedTopics := by
  obtain ⟨subs, hget, hc⟩ := (mem_subsOf_iff s t c).mp hm
  exact h (t, subs) (mapGet_eq_some_mem _ _ _ hget) c hc

theorem terminateConn_not_in_topics (c : Nat) (s : ServerState)
    (hk : KeysNodup s.topics)
    (hincl : ∀ t, c ∈ subsOf s t → t ∈ (s.conns c).subscribedTopics) :
    ∀ t, c ∉ subsOf (terminateConn c s) t := by
  intro t hmem
  have hget := closeCleanup_get c s hk t
  rw [show subsOf (terminateConn c s) t
        = (mapGet (closeCleanup c s).topics t).getD [] from rfl, hget] at hmem
  by_cases hstl : t ∈ (s.conns c).subscribedTopics
  · rw [if_pos hstl] at hmem
    exact ((mem_purge_iff c c (mapGet s.topics t)).mp hmem).2 rfl
  · rw [if_neg hstl] at hmem
    exact hstl (hincl t hmem)

theorem nodup_split_notin (l1 l2 : List Nat) (c : Nat)
    (hnd : (l1 ++ c :: l2).Nodup) : c ∉ l1 ∧ c ∉ l2 := by
  constructor
  · intro hc
    exact List.disjoint_of_nodup_append hnd hc (List.mem_cons_self c l2)
  · intro hc
    exact (List.nodup_cons.mp (hnd.of_append_right)).1 hc

theorem tick_dead_terminated (s : ServerState) (c : Nat) (hnd : s.live.Nodup)
    (hmem : c ∈ s.live) (hal : (s.conns c).isAlive = false) :
    c ∉ (tick s).live := by
  obtain ⟨l1, l2, hsplit⟩ := List.append_of_mem hmem
  rw [hsplit] at hnd
  obtain ⟨h1, h2⟩ := nodup_split_notin l1 l2 c hnd
  have htick : tick s = l2.foldl tickOne (tickOne (l1.foldl tickOne s) c) := by
    rw [tick, hsplit, List.foldl_append, List.foldl_cons]
  rw [htick]
  intro hin
  have hA := foldTick_live_sub l2 _ c hin
  have hcA : (l1.foldl tickOne s).conns c = s.conns c := foldTick_conns_notin l1 s c h1
  rw [tickOne_eq_dead _ c (by rw [hcA]; exact hal), terminateConn_live,
    List.mem_filter] at hA
  simp at hA

theorem tick_pingfail_terminated (s : ServerState) (c : Nat) (hnd : s.live.Nodup)
    (hmem : c ∈ s.live) (hal : (s.conns c).isAlive = true)
    (hpk : (s.conns c).pingOk = false) :
    c ∉ (tick s).live := by
  obtain ⟨l1, l2, hsplit⟩ := List.append_of_mem hmem
  rw [hsplit] at hnd
  obtain ⟨h1, h2⟩ := nodup_split_notin l1 l2 c hnd
  have htick : tick s = l2.foldl tickOne (tickOne (l1.foldl tickOne s) c) := by
    rw [tick, hsplit, List.foldl_append, List.foldl_cons]
  rw [htick]
  intro hin
  have hA := foldTick_live_sub l2 _ c hin
  have hcA : (l1.foldl tickOne s).conns c = s.conns c := foldTick_conns_notin l1 s c h1
  rw [tickOne_eq_pingfail _ c (by rw [hcA]; exact hal) (by rw [hcA]; exact hpk),
    terminateConn_live, List.mem_filter] at hA
  simp at hA

theorem tick_alive_probed (s : ServerState) (c : Nat) (hnd : s.live.Nodup)
    (hmem : c ∈ s.live) (hal : (s.conns c).isAlive = true)
    (hpk : (s.conns c).pingOk = true) :
    (tick s).conns c =
      { s.conns c with isAlive := false, pings := (s.conns c).pings + 1 } ∧
    c ∈ (tick s).live := by
  obtain ⟨l1, l2, hsplit⟩ := List.append_of_mem hmem
  rw [hsplit] at hnd
  obtain ⟨h1, h2⟩ := nodup_split_notin l1 l2 c hnd
  have htick : tick s = l2.foldl tickOne (tickOne (l1.foldl tickOne s) c) := by
    rw [tick, hsplit, List.foldl_append, List.foldl_cons]
  have hcA : (l1.foldl tickOne s).conns c = s.conns c := foldTick_conns_notin l1 s c h1
  have hstep := tickOne_eq_alive (l1.foldl tickOne s) c (by rw [hcA]; exact hal)
    (by rw [hcA]; exact hpk)
  have hconns : (tickOne (l1.foldl tickOne s) c).conns = updateFn (l1.foldl tickOne s).conns c { (l1.foldl tickOne s).conns c with isAlive := false, pings := ((l1.foldl tickOne s).conns c).pings + 1 } := by
    rw [hstep]
  have hliveT : (tickOne (l1.foldl tickOne s) c).live =
      (l1.foldl tickOne s).live := by
    rw [hstep]
  constructor
  · rw [htick, foldTick_conns_notin l2 _ c h2, hconns, updateFn_same, hcA]
  · rw [htick, foldTick_live_iff l2 _ c h2, hliveT, foldTick_live_iff l1 s c h1,
      hsplit]
    exact List.mem_append_right l1 (List.mem_cons_self c l2)

theorem tick_dead_removed_from_topics (s : ServerState) (c : Nat)
    (hnd : s.live.Nodup) (hmem : c ∈ s.live) (hal : (s.conns c).isAlive = false)
    (hk : KeysNodup s.topics) (hsr : SubsRecorded s) :
    ∀ t, c ∉ subsOf (tick s) t := by
  obtain ⟨l1, l2, hsplit⟩ := List.append_of_mem hmem
  rw [hsplit] at hnd
  obtain ⟨h1, h2⟩ := nodup_split_notin l1 l2 c hnd
  have htick : tick s = l2.foldl tickOne (tickOne (l1.foldl tickOne s) c) := by
    rw [tick, hsplit, List.foldl_append, List.foldl_cons]
  have hcA : (l1.foldl tickOne s).conns c = s.conns c := foldTick_conns_notin l1 s c h1
  have hkA : KeysNodup (l1.foldl tickOne s).topics := foldTick_keysNodup l1 s hk
  have hinclA : ∀ t, c ∈ subsOf (l1.foldl tickOne s) t →
      t ∈ ((l1.foldl tickOne s).conns c).subscribedTopics := by
    intro t hm
    rw [hcA]
    exact subsRecorded_incl s hsr c t (foldTick_subs_sub l1 s hk c t hm)
  have hstep := tickOne_eq_dead (l1.foldl tickOne s) c (by rw [hcA]; exact hal)
  intro t hin
  rw [htick] at hin
  have hmid := foldTick_subs_sub l2 _ (by rw [hstep]; exact terminateConn_keysNodup c _ hkA)
    c t hin
  rw [hstep] at hmid
  exact terminateConn_not_in_topics c _ hkA hinclA t hmid

/-- C7: on a heartbeat tick over a duplicate-free client list, a tracked
connection whose liveness flag is false is terminated (and, when the
registry is map-shaped and records subscribers, removed from every topic);
any other tracked connection gets its flag cleared and one probe sent, and
stays unless the probe call fails, in which case it is terminated at once;
consequently a connection that never answers a probe is gone from the
client set by the second tick. -/
theorem heartbeat_monitor (s : ServerState) (c : Nat)
    (hnd : s.live.Nodup) (hmem : c ∈ s.live) :
    ((s.conns c).isAlive = false → c ∉ (tick s).live ∧
      (KeysNodup s.topics → SubsRecorded s → ∀ t, c ∉ subsOf (tick s) t)) ∧
    ((s.conns c).isAlive = true → (s.conns c).pingOk = true →
      (tick s).conns c =
        { s.conns c with isAlive := false, pings := (s.conns c).pings + 1 } ∧
      c ∈ (tick s).live) ∧
    ((s.conns c).isAlive = true → (s.conns c).pingOk = false →
      c ∉ (tick s).live) ∧
    ((s.conns c).pingOk = true → c ∉ (tick (tick s)).live) := by
  refine ⟨?_, ?_, ?_, ?_⟩
  · intro hal
    exact ⟨tick_dead_terminated s c hnd hmem hal,
      fun hk hsr => tick_dead_removed_from_topics s c hnd hmem hal hk hsr⟩
  · intro hal hpk
    exact tick_alive_probed s c hnd hmem hal hpk
  · intro hal hpk
    exact tick_pingfail_terminated s c hnd hmem hal hpk
  · intro hpk
    cases hal : (s.conns c).isAlive with
    | false =>
      have h1 := tick_dead_terminated s c hnd hmem hal
      intro hin
      exact h1 (foldTick_live_sub (tick s).live (tick s) c hin)
    | true =>
      obtain ⟨hconn, hlive⟩ := tick_alive_probed s c hnd hmem hal hpk
      have hnd2 : (tick s).live.Nodup := foldTick_live_nodup s.live s hnd
      have hal2 : ((tick s).conns c).isAlive = false := by
        rw [hconn]
      exact tick_dead_terminated (tick s) c hnd2 hlive hal2

/-- Concrete two-subscriber state for the heartbeat witness: connection 0
is already suspect, connection 1 is alive. -/
def hbState : ServerState :=
  { topics := [("x", [0, 1])],
    conns := fun j => if j = 0 then { isAlive := false, subscribedTopics := ["x"] }
                      else { subscribedTopics := ["x"] },
    live := [0, 1] }

/-- Witness for C7: in `hbState`, suspect connection 0 is terminated and
removed from topic `x` by one tick. -/
theorem heartbeat_monitor_witness :
    (0 ∉ (tick hbState).live ∧
      (KeysNodup hbState.topics → SubsRecorded hbState →
        ∀ t, 0 ∉ subsOf (tick hbState) t)) :=
  (heartbeat_monitor hbState 0 (by decide) (by decide)).1 (by decide)

end SignalingServer
